import Mathlib

/-!
Verification of the meeting status/grouping/parsing engine of a Teams-meeting
launcher extension.  The TypeScript source is shallowly embedded: JavaScript
`Date` values are modelled as their millisecond timestamps (`Int`), the
engine-dependent generic date-string parsing, local date construction and
locale formatting of the host are abstracted into a `JsDateEnv` record, and
the internal `new Date()` / `Date.now()` clock reads of the source are
surfaced as an explicit `now : Int` argument (all clock reads during a single
load are modelled as the same instant).
-/

set_option maxRecDepth 4000

/-- Meeting status enum of the source (`MeetingStatus`). -/
inductive MeetingStatus where
  | Ended
  | Active
  | Upcoming
deriving Repr, DecidableEq, BEq

/-- Embedding of `getMeetingStatus(startDate, endDate?)`.  The source reads
`const now = new Date()` on entry; that read is the `now` argument here.
`endDate` is the optional second parameter (a present JavaScript `Date` is
always truthy, so `endDate && now > endDate` is `endDate.isSome` together
with the comparison). -/
def getMeetingStatus (now startDate : Int) (endDate : Option Int) : MeetingStatus :=
  let fiveMinuteBuffer : Int := 5 * 60 * 1000
  match endDate with
  | some e =>
      if e < now then MeetingStatus.Ended
      else if startDate - fiveMinuteBuffer ≤ now then
        (if now ≤ e then MeetingStatus.Active else MeetingStatus.Ended)
      else MeetingStatus.Upcoming
  | none =>
      if startDate - fiveMinuteBuffer ≤ now then
        (if now ≤ startDate + 60 * 60 * 1000 then MeetingStatus.Active
         else MeetingStatus.Ended)
      else MeetingStatus.Upcoming

/-- Embedding of `isFileOlderThanHours(filePath, hours)`.  The file system is
abstracted into `mtime : Option Int`: `some m` is a successful `stat` whose
`mtime.getTime()` is `m`, `none` is a thrown `stat` (missing/inaccessible
file).  `Date.now()` is the `now` argument. -/
def isFileOlderThanHours (mtime : Option Int) (now : Int) (hours : Int) : Bool :=
  if hours ≤ 0 then
    false
  else
    match mtime with
    | some m =>
        let fileAge := now - m
        let thresholdMs := hours * 60 * 60 * 1000
        decide (thresholdMs < fileAge)
    | none => true

/-- Host-engine surface used by the source: `parse` is `new Date(string)`
(`none` for an Invalid Date), `mkLocal` is the timestamp of
`new Date(year, monthIndex, day, hour, minute)` in local time, `fmtTime` is
`toLocaleTimeString([], \x7bhour: "2-digit", minute: "2-digit"\x7d)`,
`dateKey` is `Date.prototype.toDateString`, and `keyTime` is the timestamp of
`new Date(dateString)`. -/
structure JsDateEnv where
  parse : String → Option Int
  mkLocal : Int → Int → Int → Int → Int → Int
  fmtTime : Int → String
  dateKey : Int → String
  keyTime : String → Int

/-- JavaScript regex `\d`. -/
def jsDigit (c : Char) : Bool := '0' ≤ c && c ≤ '9'

/-- JavaScript regex `\s` (WhiteSpace and LineTerminator code points). -/
def jsSpace (c : Char) : Bool :=
  c = ' ' || c = '\t' || c = '\n' || c = '\r' ||
  c = '\x0b' || c = '\x0c' || c = ' ' || c = ' ' ||
  (' ' ≤ c && c ≤ ' ') || c = ' ' || c = ' ' ||
  c = ' ' || c = ' ' || c = '　' || c = '﻿'

/-- Greedy `\d\x7b1,2\x7d`.  In the source pattern every occurrence is followed
by `[,/]` or `:`, which are disjoint from digits, so capped maximal munch is
equivalent to the regex's greedy-with-backtracking semantics. -/
def takeDigitsUpTo2 : List Char → Option (List Char × List Char)
  | a :: b :: rest =>
      if jsDigit a && jsDigit b then some ([a, b], rest)
      else if jsDigit a then some ([a], b :: rest)
      else none
  | [a] => if jsDigit a then some ([a], []) else none
  | [] => none

/-- The character class `[,/]`. -/
def takeSep : List Char → Option (List Char)
  | c :: rest => if c = ',' || c = '/' then some rest else none
  | [] => none

/-- `\d\x7b4\x7d`. -/
def take4Digits : List Char → Option (List Char × List Char)
  | a :: b :: c :: d :: rest =>
      if jsDigit a && jsDigit b && jsDigit c && jsDigit d then
        some ([a, b, c, d], rest)
      else none
  | _ => none

/-- `\d\x7b2\x7d`. -/
def take2Digits : List Char → Option (List Char × List Char)
  | a :: b :: rest =>
      if jsDigit a && jsDigit b then some ([a, b], rest) else none
  | _ => none

/-- `\s+` (one mandatory space character, then maximal munch; the next regex
atom is a digit, disjoint from `\s`). -/
def takeSpaces1 (cs : List Char) : Option (List Char) :=
  match cs with
  | c :: rest => if jsSpace c then some (rest.dropWhile jsSpace) else none
  | [] => none

/-- The five capture groups of the source pattern
`(\d\x7b1,2\x7d)[,/]\s*(\d\x7b1,2\x7d)[,/]\s*(\d\x7b4\x7d)(?:\s+(\d\x7b1,2\x7d):(\d\x7b2\x7d))?`,
with the destructuring defaults `hour = "0"`, `minute = "0"` applied when the
optional time group is absent. -/
structure DMYMatch where
  day : List Char
  month : List Char
  year : List Char
  hour : List Char
  minute : List Char
deriving Repr, DecidableEq

/-- Attempt of the source pattern anchored at the current position. -/
def matchDMYAt (cs : List Char) : Option DMYMatch :=
  match takeDigitsUpTo2 cs with
  | none => none
  | some (d, cs1) =>
    match takeSep cs1 with
    | none => none
    | some cs2 =>
      match takeDigitsUpTo2 (cs2.dropWhile jsSpace) with
      | none => none
      | some (mo, cs3) =>
        match takeSep cs3 with
        | none => none
        | some cs4 =>
          match take4Digits (cs4.dropWhile jsSpace) with
          | none => none
          | some (y, cs5) =>
            let time : Option (List Char × List Char) :=
              match takeSpaces1 cs5 with
              | none => none
              | some cs6 =>
                match takeDigitsUpTo2 cs6 with
                | none => none
                | some (h, cs7) =>
                  match cs7 with
                  | ':' :: cs8 =>
                    (match take2Digits cs8 with
                     | some (mi, _) => some (h, mi)
                     | none => none)
                  | _ => none
            match time with
            | some (h, mi) => some ⟨d, mo, y, h, mi⟩
            | none => some ⟨d, mo, y, ['0'], ['0']⟩

/-- `String.prototype.match` with the unanchored source pattern: leftmost
position whose anchored attempt succeeds. -/
def findDMY : List Char → Option DMYMatch
  | [] => matchDMYAt []
  | c :: rest =>
    match matchDMYAt (c :: rest) with
    | some r => some r
    | none => findDMY rest

/-- `parseInt` on a capture group, which is always a plain digit string. -/
def parseIntDigits (cs : List Char) : Int :=
  Int.ofNat (cs.foldl (fun n c => 10 * n + (c.toNat - 48)) 0)

/-- `replace(/,/g, "/")`: the pattern is the single character `,`, so the
global regex replacement is a character-wise map. -/
def replaceCommas (s : String) : String :=
  String.mk (s.toList.map (fun c => if c = ',' then '/' else c))

/-- The date-resolution fallback chain applied to `parts[0]` in
`fetchMeetings`: generic parse of the raw string; generic parse after
`replace(/,/g, "/")`; explicit local construction from the pattern match with
`parseInt(month) - 1`; `none` when all three strategies fail (the caller then
falls back to `new Date()`). -/
def resolveStartDate (E : JsDateEnv) (raw : String) : Option Int :=
  match E.parse raw with
  | some t => some t
  | none =>
    match E.parse (replaceCommas raw) with
    | some t => some t
    | none =>
      match findDMY raw.toList with
      | some m =>
          some (E.mkLocal (parseIntDigits m.year) (parseIntDigits m.month - 1)
            (parseIntDigits m.day) (parseIntDigits m.hour) (parseIntDigits m.minute))
      | none => none

/-- One parsed record (`MeetingInfo` in the source).  `Subject` and
`TeamsLink` are `Option` because `parts[1]` / `parts[2]` are `undefined` when
the line has fewer than two / three `;`-separated fields. -/
structure MeetingInfo where
  StartTime : String
  Subject : Option String
  TeamsLink : Option String
  parsedDate : Int
  endDate : Int
  timeDisplay : String
  status : MeetingStatus
deriving Repr, DecidableEq

/-- JavaScript truthiness of `parts[i]`: `undefined` and `""` are falsy. -/
def jsTruthy : Option String → Bool
  | none => false
  | some s => !s.isEmpty

/-- `line.split(";")`: the separator is the single character `;`. -/
def splitSemisAux : List Char → List Char → List String
  | [], acc => [String.mk acc.reverse]
  | c :: rest, acc =>
      if c = ';' then String.mk acc.reverse :: splitSemisAux rest []
      else splitSemisAux rest (c :: acc)

/-- `line.split(";")` on a string. -/
def splitSemis (s : String) : List String := splitSemisAux s.toList []

/-- Construction of the record object literal in the `map` callback of
`fetchMeetings`, from `parts[0]`, `parts[1]`, `parts[2]`.  `p0` is always a
present string (`split` never returns an empty array); `validParsedDate`
falls back to `new Date()` (the load instant `now`) when every parse
strategy failed, and `endDate` is always `validParsedDate` plus one hour. -/
def mkMeeting (E : JsDateEnv) (now : Int) (p0 : String) (p1 p2 : Option String) :
    MeetingInfo :=
  let resolved := resolveStartDate E p0
  let validParsedDate := resolved.getD now
  let endDate := validParsedDate + 60 * 60 * 1000
  { StartTime := p0
    Subject := p1
    TeamsLink := p2
    parsedDate := validParsedDate
    endDate := endDate
    timeDisplay :=
      match resolved with
      | some t => E.fmtTime t
      | none => p0
    status := getMeetingStatus now validParsedDate (some endDate) }

/-- The whole `map` callback: split the line on `;` and build the record
from the three leading fields. -/
def parseLine (E : JsDateEnv) (now : Int) (line : String) : MeetingInfo :=
  let parts := splitSemis line
  mkMeeting E now (parts.headD "") (parts.get? 1) (parts.get? 2)

/-- The `filter` callback `m => m.StartTime && m.Subject && m.TeamsLink`. -/
def passesRequired (m : MeetingInfo) : Bool :=
  !m.StartTime.isEmpty && jsTruthy m.Subject && jsTruthy m.TeamsLink

/-- `split(/\r?\n/)`: a line break is `\n` optionally preceded by `\r`; a
lone `\r` does not split. -/
def splitLinesAux : List Char → List Char → List String
  | [], acc => [String.mk acc.reverse]
  | '\r' :: '\n' :: rest, acc => String.mk acc.reverse :: splitLinesAux rest []
  | '\n' :: rest, acc => String.mk acc.reverse :: splitLinesAux rest []
  | c :: rest, acc => splitLinesAux rest (c :: acc)

/-- `split(/\r?\n/)` on a string. -/
def splitLines (s : String) : List String := splitLinesAux s.toList []

/-- `String.prototype.trim`, which strips the `\s` set at both ends. -/
def jsTrim (s : String) : String :=
  String.mk (((s.toList.dropWhile jsSpace).reverse.dropWhile jsSpace).reverse)

/-- `lines.map(parseLine).filter(passesRequired)` over a given line list. -/
def lineRecords (E : JsDateEnv) (now : Int) (lines : List String) :
    List MeetingInfo :=
  (lines.map (parseLine E now)).filter passesRequired

/-- The unsorted record list of `fetchMeetings`:
`fileContent.trim().split(/\r?\n/).slice(1).map(...).filter(...)`. -/
def loadedRecords (E : JsDateEnv) (now : Int) (content : String) :
    List MeetingInfo :=
  lineRecords E now ((splitLines (jsTrim content)).drop 1)

/-- The stable `sort((a, b) => a.parsedDate.getTime() - b.parsedDate.getTime())`
step: insert `x` before the first element with a strictly larger key, after
all earlier elements with an equal or smaller key. -/
def insertByStart (x : MeetingInfo) : List MeetingInfo → List MeetingInfo
  | [] => [x]
  | y :: ys =>
      if x.parsedDate ≤ y.parsedDate then x :: y :: ys
      else y :: insertByStart x ys

/-- Stable sort by `parsedDate` (ECMAScript `Array.prototype.sort` is
required to be stable; a stable sort is extensionally unique, so insertion
sort is a faithful model). -/
def sortByStart (l : List MeetingInfo) : List MeetingInfo :=
  l.foldr insertByStart []

/-- The successful body of `fetchMeetings`. -/
def fetchMeetingsOk (E : JsDateEnv) (now : Int) (content : String) :
    List MeetingInfo :=
  sortByStart (loadedRecords E now content)

/-- `fetchMeetings(filePath)`: the `readFile` outcome is abstracted into
`readResult` (`none` = the read threw); the `catch` turns any read failure
into a single error carrying the attempted path, and a successful read never
throws (every per-line operation in the pipeline is total). -/
def fetchMeetings (E : JsDateEnv) (now : Int) (filePath : String)
    (readResult : Option String) : Except String (List MeetingInfo) :=
  match readResult with
  | some content => Except.ok (fetchMeetingsOk E now content)
  | none => Except.error ("Could not read or find the file at: " ++ filePath)

/-- The dropdown filter options of the `Command` component. -/
inductive FilterOption where
  | All
  | UpcomingAndActive
deriving Repr, DecidableEq

/-- `filteredMeetings`: `UpcomingAndActive` keeps records whose status is not
`Ended`; `All` keeps everything. -/
def applyFilter (f : FilterOption) (l : List MeetingInfo) : List MeetingInfo :=
  match f with
  | FilterOption.UpcomingAndActive =>
      l.filter (fun m => m.status != MeetingStatus.Ended)
  | FilterOption.All => l

/-- `meeting.parsedDate.toDateString()`, the grouping key of a record. -/
def recKey (E : JsDateEnv) (m : MeetingInfo) : String := E.dateKey m.parsedDate

/-- One step of the grouping `reduce`: push the record onto its key's array
if the key is present, otherwise append a new key (object property insertion
order) with a singleton array. -/
def addToGroups (E : JsDateEnv) (groups : List (String × List MeetingInfo))
    (m : MeetingInfo) : List (String × List MeetingInfo) :=
  match groups with
  | [] => [(recKey E m, [m])]
  | (k, ms) :: rest =>
      if k = recKey E m then (k, ms ++ [m]) :: rest
      else (k, ms) :: addToGroups E rest m

/-- `groupedMeetings`: the `reduce` over the filtered list, modelled as an
association list in property insertion order. -/
def groupMeetings (E : JsDateEnv) (l : List MeetingInfo) :
    List (String × List MeetingInfo) :=
  l.foldl (addToGroups E) []

/-- One insertion step of the stable key sort
`sort((a, b) => new Date(a).getTime() - new Date(b).getTime())`. -/
def insertKeyByTime (E : JsDateEnv) (k : String) : List String → List String
  | [] => [k]
  | y :: ys =>
      if E.keyTime k ≤ E.keyTime y then k :: y :: ys
      else y :: insertKeyByTime E k ys

/-- `sortedDateKeys`: the object keys sorted by their reparsed timestamps. -/
def sortKeysByTime (E : JsDateEnv) (ks : List String) : List String :=
  ks.foldr (insertKeyByTime E) []

/-- `groupedMeetings[dateKey]`. -/
def groupValues (groups : List (String × List MeetingInfo)) (k : String) :
    List MeetingInfo :=
  match groups.lookup k with
  | some ms => ms
  | none => []

/-- The record sequence the view emits: for each key of `sortedDateKeys` in
order, that key's group array in order. -/
def emittedSequence (E : JsDateEnv) (l : List MeetingInfo) : List MeetingInfo :=
  let groups := groupMeetings E l
  ((sortKeysByTime E (groups.map Prod.fst)).map (groupValues groups)).flatten

/-- Concatenation of all group arrays in property insertion order. -/
def flattenValues (groups : List (String × List MeetingInfo)) :
    List MeetingInfo :=
  (groups.map Prod.snd).flatten

/-- Concrete host environment used by witnesses: the generic date parse
always fails, every instant falls on one calendar day. -/
def E0 : JsDateEnv where
  parse := fun _ => none
  mkLocal := fun y mo d h mi => (((y * 12 + mo) * 31 + d) * 24 + h) * 60 + mi
  fmtTime := fun _ => "fmt"
  dateKey := fun _ => "day"
  keyTime := fun _ => 0

/-- Concrete host environment whose generic parse recognises one string. -/
def E1 : JsDateEnv where
  parse := fun s => if s = "09:00" then some 100 else none
  mkLocal := fun _ _ _ _ _ => 0
  fmtTime := fun t => if t = 100 then "09 AM" else "??"
  dateKey := fun _ => "day"
  keyTime := fun _ => 0

/-- C1: for a meeting whose `endInstant` is `startInstant + 1` hour, the
classifier returns `Ended` when `now > end`, `Active` on the whole closed
window from `start - 5` minutes to `end` (both boundaries inclusive), and
`Upcoming` strictly before `start - 5` minutes. -/
theorem C1_temporal_classifier (start now : Int) :
    (start + 60 * 60 * 1000 < now →
      getMeetingStatus now start (some (start + 60 * 60 * 1000)) = MeetingStatus.Ended) ∧
    (start - 5 * 60 * 1000 ≤ now → now ≤ start + 60 * 60 * 1000 →
      getMeetingStatus now start (some (start + 60 * 60 * 1000)) = MeetingStatus.Active) ∧
    (now < start - 5 * 60 * 1000 →
      getMeetingStatus now start (some (start + 60 * 60 * 1000)) = MeetingStatus.Upcoming) ∧
    getMeetingStatus (start + 60 * 60 * 1000) start (some (start + 60 * 60 * 1000))
      = MeetingStatus.Active ∧
    getMeetingStatus (start - 5 * 60 * 1000) start (some (start + 60 * 60 * 1000))
      = MeetingStatus.Active := by
  refine ⟨?_, ?_, ?_, ?_, ?_⟩
  · intro h
    simp only [getMeetingStatus, if_pos h]
  · intro h1 h2
    have hne : ¬ start + 60 * 60 * 1000 < now := not_lt.mpr h2
    simp only [getMeetingStatus]
    rw [if_neg hne, if_pos h1, if_pos h2]
  · intro h
    have hne : ¬ start + 60 * 60 * 1000 < now := by omega
    have hup : ¬ start - 5 * 60 * 1000 ≤ now := not_le.mpr h
    simp only [getMeetingStatus]
    rw [if_neg hne, if_neg hup]
  · have hne : ¬ start + 60 * 60 * 1000 < start + 60 * 60 * 1000 := lt_irrefl _
    have h1 : start - 5 * 60 * 1000 ≤ start + 60 * 60 * 1000 := by omega
    simp only [getMeetingStatus]
    rw [if_neg hne, if_pos h1, if_pos (le_refl _)]
  · have hne : ¬ start + 60 * 60 * 1000 < start - 5 * 60 * 1000 := by omega
    have h2 : start - 5 * 60 * 1000 ≤ start + 60 * 60 * 1000 := by omega
    simp only [getMeetingStatus]
    rw [if_neg hne, if_pos (le_refl _), if_pos h2]

/-- C1 witness at concrete inputs (start at 10\x3a00 in ms-of-day scale). -/
theorem C1_temporal_classifier_witness :
    (36000000 + 60 * 60 * 1000 < 40000000 ∧
      getMeetingStatus 40000000 36000000 (some (36000000 + 60 * 60 * 1000))
        = MeetingStatus.Ended) ∧
    (36000000 - 5 * 60 * 1000 ≤ 36000000 ∧ (36000000 : Int) ≤ 36000000 + 60 * 60 * 1000 ∧
      getMeetingStatus 36000000 36000000 (some (36000000 + 60 * 60 * 1000))
        = MeetingStatus.Active) ∧
    ((30000000 : Int) < 36000000 - 5 * 60 * 1000 ∧
      getMeetingStatus 30000000 36000000 (some (36000000 + 60 * 60 * 1000))
        = MeetingStatus.Upcoming) := by
  refine ⟨⟨by decide, (C1_temporal_classifier 36000000 40000000).1 (by decide)⟩,
          ⟨by decide, by decide,
            (C1_temporal_classifier 36000000 36000000).2.1 (by decide) (by decide)⟩,
          ⟨by decide, (C1_temporal_classifier 36000000 30000000).2.2.1 (by decide)⟩⟩

/-- C5: the staleness check is `false` whenever the threshold is
non-positive, regardless of the file state; for a positive threshold it is
`true` exactly when the file age strictly exceeds the threshold in
milliseconds, and it is `true` whenever the modification time cannot be
determined. -/
theorem C5_staleness_policy (mtime : Option Int) (m now hours : Int) :
    (hours ≤ 0 → isFileOlderThanHours mtime now hours = false) ∧
    (0 < hours →
      (isFileOlderThanHours (some m) now hours = true ↔
        hours * 60 * 60 * 1000 < now - m)) ∧
    (0 < hours → isFileOlderThanHours none now hours = true) := by
  refine ⟨?_, ?_, ?_⟩
  · intro h
    simp only [isFileOlderThanHours, if_pos h]
  · intro h
    have hn : ¬ hours ≤ 0 := not_le.mpr h
    simp only [isFileOlderThanHours, if_neg hn, decide_eq_true_eq]
  · intro h
    have hn : ¬ hours ≤ 0 := not_le.mpr h
    simp only [isFileOlderThanHours, if_neg hn]

/-- C5 witness: threshold 0 disables; threshold 24h with a 25h-old file is
stale; a missing file is stale. -/
theorem C5_staleness_policy_witness :
    ((0 : Int) ≤ 0 ∧ isFileOlderThanHours (some 0) 90000000 0 = false) ∧
    ((0 : Int) < 24 ∧
      (isFileOlderThanHours (some 0) 90000000 24 = true ↔
        (24 : Int) * 60 * 60 * 1000 < 90000000 - 0)) ∧
    ((0 : Int) < 24 ∧ isFileOlderThanHours none 90000000 24 = true) := by
  refine ⟨⟨le_refl 0, (C5_staleness_policy (some 0) 0 90000000 0).1 (le_refl 0)⟩,
          ⟨by decide, (C5_staleness_policy (some 0) 0 90000000 24).2.1 (by decide)⟩,
          ⟨by decide, (C5_staleness_policy none 0 90000000 24).2.2 (by decide)⟩⟩

/-- Projection: the stored raw start-time text is the literal first field. -/
theorem parseLine_StartTime (E : JsDateEnv) (now : Int) (line : String) :
    (parseLine E now line).StartTime = (splitSemis line).headD "" := rfl

/-- Projection: the subject is the literal second field (or `undefined`). -/
theorem parseLine_Subject (E : JsDateEnv) (now : Int) (line : String) :
    (parseLine E now line).Subject = (splitSemis line).get? 1 := rfl

/-- Projection: the join link is the literal third field (or `undefined`). -/
theorem parseLine_TeamsLink (E : JsDateEnv) (now : Int) (line : String) :
    (parseLine E now line).TeamsLink = (splitSemis line).get? 2 := rfl

/-- Projection: the resolved start instant, with the `new Date()` fallback. -/
theorem parseLine_parsedDate (E : JsDateEnv) (now : Int) (line : String) :
    (parseLine E now line).parsedDate =
      (resolveStartDate E ((splitSemis line).headD "")).getD now := rfl

/-- Projection: the end instant is always one hour past the start instant. -/
theorem parseLine_endDate (E : JsDateEnv) (now : Int) (line : String) :
    (parseLine E now line).endDate =
      (parseLine E now line).parsedDate + 60 * 60 * 1000 := rfl

/-- Projection: the displayed time, by resolution outcome. -/
theorem parseLine_timeDisplay (E : JsDateEnv) (now : Int) (line : String) :
    (parseLine E now line).timeDisplay =
      (match resolveStartDate E ((splitSemis line).headD "") with
       | some t => E.fmtTime t
       | none => (splitSemis line).headD "") := rfl

/-- Projection: the status stored at load time. -/
theorem parseLine_status (E : JsDateEnv) (now : Int) (line : String) :
    (parseLine E now line).status =
      getMeetingStatus now ((resolveStartDate E ((splitSemis line).headD "")).getD now)
        (some ((resolveStartDate E ((splitSemis line).headD "")).getD now + 60 * 60 * 1000)) :=
  rfl

/-- The required-field check only reads the three leading fields. -/
theorem passesRequired_parseLine (E : JsDateEnv) (now : Int) (line : String) :
    passesRequired (parseLine E now line) =
      (!((splitSemis line).headD "").isEmpty &&
        jsTruthy ((splitSemis line).get? 1) && jsTruthy ((splitSemis line).get? 2)) := rfl

/-- Membership through one stable-sort insertion. -/
theorem mem_insertByStart (x y : MeetingInfo) (l : List MeetingInfo) :
    y ∈ insertByStart x l ↔ y = x ∨ y ∈ l := by
  induction l with
  | nil => simp [insertByStart]
  | cons z zs ih =>
      by_cases h : x.parsedDate ≤ z.parsedDate
      · simp [insertByStart, h]
      · simp only [insertByStart, if_neg h, List.mem_cons, ih]
        tauto

/-- Sorting does not change membership. -/
theorem mem_sortByStart (y : MeetingInfo) (l : List MeetingInfo) :
    y ∈ sortByStart l ↔ y ∈ l := by
  induction l with
  | nil => simp [sortByStart]
  | cons z zs ih =>
      have h : sortByStart (z :: zs) = insertByStart z (sortByStart zs) := rfl
      rw [h, mem_insertByStart, ih, List.mem_cons]

/-- Every record of the sorted output comes from one post-header line and
passed the required-field check. -/
theorem exists_line_of_mem_fetchMeetingsOk (E : JsDateEnv) (now : Int)
    (content : String) (m : MeetingInfo) (hm : m ∈ fetchMeetingsOk E now content) :
    ∃ line ∈ (splitLines (jsTrim content)).drop 1,
      m = parseLine E now line ∧ passesRequired m = true := by
  simp only [fetchMeetingsOk] at hm
  rw [mem_sortByStart] at hm
  simp only [loadedRecords, lineRecords] at hm
  rw [List.mem_filter] at hm
  obtain ⟨hmap, hpass⟩ := hm
  rw [List.mem_map] at hmap
  obtain ⟨line, hline, heq⟩ := hmap
  exact ⟨line, hline, heq.symm, hpass⟩

/-- C2: the start-time field is resolved by a fallback chain tried in order:
a direct generic parse; a generic parse after replacing every comma with a
slash; an explicit local construction from the `D[,/]M[,/]Y[ H:MM]` pattern
match (hour and minute defaulting to 0) with 1 subtracted from the parsed
month; and finally the load instant.  Required-field validation is
independent of date resolution, so no record is rejected for an unparseable
date, and the input `28, 08, 2025 14:30` resolves to local
year 2025, month index 7 (August), day 28, 14:30 when both generic parses
reject it. -/
theorem C2_date_fallback_chain (E E2 : JsDateEnv) (now now2 t : Int)
    (raw line : String) (dm : DMYMatch) :
    (E.parse raw = some t → resolveStartDate E raw = some t) ∧
    (E.parse raw = none → E.parse (replaceCommas raw) = some t →
      resolveStartDate E raw = some t) ∧
    (E.parse raw = none → E.parse (replaceCommas raw) = none →
      findDMY raw.toList = some dm →
      resolveStartDate E raw =
        some (E.mkLocal (parseIntDigits dm.year) (parseIntDigits dm.month - 1)
          (parseIntDigits dm.day) (parseIntDigits dm.hour) (parseIntDigits dm.minute))) ∧
    (resolveStartDate E ((splitSemis line).headD "") = none →
      (parseLine E now line).parsedDate = now) ∧
    (passesRequired (parseLine E now line) = passesRequired (parseLine E2 now2 line)) ∧
    (E.parse "28, 08, 2025 14:30" = none →
      E.parse (replaceCommas "28, 08, 2025 14:30") = none →
      resolveStartDate E "28, 08, 2025 14:30" = some (E.mkLocal 2025 7 28 14 30)) := by
  refine ⟨?_, ?_, ?_, ?_, rfl, ?_⟩
  · intro h
    simp [resolveStartDate, h]
  · intro h1 h2
    simp [resolveStartDate, h1, h2]
  · intro h1 h2 h3
    simp only [String.toList] at h3
    simp [resolveStartDate, h1, h2, h3]
  · intro h
    rw [parseLine_parsedDate, h]
    rfl
  · intro h1 h2
    have hf : findDMY ("28, 08, 2025 14:30".toList) =
        some ⟨['2', '8'], ['0', '8'], ['2', '0', '2', '5'], ['1', '4'], ['3', '0']⟩ := by
      decide
    have hd : parseIntDigits ['2', '8'] = 28 := by decide
    have hmo : parseIntDigits ['0', '8'] = 8 := by decide
    have hy : parseIntDigits ['2', '0', '2', '5'] = 2025 := by decide
    have hh : parseIntDigits ['1', '4'] = 14 := by decide
    have hmi : parseIntDigits ['3', '0'] = 30 := by decide
    simp only [resolveStartDate, h1, h2, hf, hd, hmo, hy, hh, hmi]
    norm_num

/-- C2 witness: with a host whose generic parse always fails, the example
string resolves through the pattern-match strategy, and an unmatchable field
falls back to the load instant 77. -/
theorem C2_date_fallback_chain_witness :
    E0.parse "28, 08, 2025 14:30" = none ∧
    E0.parse (replaceCommas "28, 08, 2025 14:30") = none ∧
    resolveStartDate E0 "28, 08, 2025 14:30" = some (E0.mkLocal 2025 7 28 14 30) ∧
    resolveStartDate E0 ((splitSemis "bogus;S;L").headD "") = none ∧
    (parseLine E0 77 "bogus;S;L").parsedDate = 77 :=
  ⟨rfl, rfl,
   (C2_date_fallback_chain E0 E0 0 0 0 "x" "x" ⟨[], [], [], [], []⟩).2.2.2.2.2 rfl rfl,
   by decide,
   (C2_date_fallback_chain E0 E0 77 0 0 "x" "bogus;S;L" ⟨[], [], [], [], []⟩).2.2.2.1
     (by decide)⟩

/-- C3: `load` splits on CRLF or LF and discards the first line as a header
unconditionally (only the post-header lines determine the result); a line
materializes a record exactly when each of the three leading `;`-separated
fields is non-empty; `Subject` and `TeamsLink` hold the literal field text;
and fields past the third never influence the record. -/
theorem C3_record_materialization (E : JsDateEnv) (now : Int)
    (line c1 c2 : String) :
    ((splitLines (jsTrim c1)).drop 1 = (splitLines (jsTrim c2)).drop 1 →
      loadedRecords E now c1 = loadedRecords E now c2) ∧
    (loadedRecords E now c1 =
      (((splitLines (jsTrim c1)).drop 1).map (parseLine E now)).filter passesRequired) ∧
    (passesRequired (parseLine E now line) = true ↔
      ∃ p0 p1 p2 rest, splitSemis line = p0 :: p1 :: p2 :: rest ∧
        p0 ≠ "" ∧ p1 ≠ "" ∧ p2 ≠ "") ∧
    ((parseLine E now line).StartTime = (splitSemis line).headD "" ∧
     (parseLine E now line).Subject = (splitSemis line).get? 1 ∧
     (parseLine E now line).TeamsLink = (splitSemis line).get? 2) ∧
    (∀ line2 : String,
      (splitSemis line).headD "" = (splitSemis line2).headD "" →
      (splitSemis line).get? 1 = (splitSemis line2).get? 1 →
      (splitSemis line).get? 2 = (splitSemis line2).get? 2 →
      parseLine E now line = parseLine E now line2) ∧
    splitLines "StartTime;Subject;TeamsLink\r\n09:00;A;L\n14:00;B;M"
      = ["StartTime;Subject;TeamsLink", "09:00;A;L", "14:00;B;M"] := by
  refine ⟨?_, rfl, ?_, ⟨rfl, rfl, rfl⟩, ?_, by decide⟩
  · intro h
    simp only [loadedRecords]
    rw [h]
  · rw [passesRequired_parseLine]
    generalize splitSemis line = ps
    match ps with
    | [] => simp [jsTruthy]
    | [p0] => simp [jsTruthy]
    | [p0, p1] => simp [jsTruthy]
    | p0 :: p1 :: p2 :: rest =>
        simp only [List.headD_cons, List.get?, jsTruthy, Bool.and_eq_true,
          Bool.not_eq_true', List.cons.injEq]
        constructor
        · rintro ⟨⟨h0, h1⟩, h2⟩
          exact ⟨p0, p1, p2, rest, ⟨rfl, rfl, rfl, rfl⟩,
            by simpa [Bool.eq_false_iff, String.isEmpty_iff] using h0,
            by simpa [Bool.eq_false_iff, String.isEmpty_iff] using h1,
            by simpa [Bool.eq_false_iff, String.isEmpty_iff] using h2⟩
        · rintro ⟨q0, q1, q2, qrest, ⟨e0, e1, e2, _⟩, h0, h1, h2⟩
          subst e0; subst e1; subst e2
          exact ⟨⟨by simpa [Bool.eq_false_iff, String.isEmpty_iff] using h0,
            by simpa [Bool.eq_false_iff, String.isEmpty_iff] using h1⟩,
            by simpa [Bool.eq_false_iff, String.isEmpty_iff] using h2⟩
  · intro line2 h0 h1 h2
    simp only [parseLine]
    rw [h0, h1, h2]

/-- C3 witness: a full three-field line materializes, a line with an empty
first field does not, and header replacement does not change the result. -/
theorem C3_record_materialization_witness :
    passesRequired (parseLine E0 0 "09:00;Daily;https") = true ∧
    loadedRecords E0 0 "x\nh;i;j\na;b;c" = loadedRecords E0 0 "y\r\nh;i;j\na;b;c" :=
  ⟨(C3_record_materialization E0 0 "09:00;Daily;https" "" "").2.2.1.mpr
    ⟨"09:00", "Daily", "https", [], by decide, by decide, by decide, by decide⟩,
   (C3_record_materialization E0 0 "" "x\nh;i;j\na;b;c" "y\r\nh;i;j\na;b;c").1
    (by decide)⟩

/-- C7: every record of the loaded output has an end instant exactly
60 minutes after its start instant, whichever resolution strategy (including
the load-instant fallback) produced the start. -/
theorem C7_end_is_start_plus_hour (E : JsDateEnv) (now : Int) (content : String)
    (m : MeetingInfo) (hm : m ∈ fetchMeetingsOk E now content) :
    m.endDate = m.parsedDate + 60 * 60 * 1000 := by
  obtain ⟨line, _, hEq, _⟩ := exists_line_of_mem_fetchMeetingsOk E now content m hm
  rw [hEq]
  exact parseLine_endDate E now line

/-- C7 witness on a concrete one-record file. -/
theorem C7_end_is_start_plus_hour_witness :
    parseLine E0 0 "a;b;c" ∈ fetchMeetingsOk E0 0 "h\na;b;c" ∧
    (parseLine E0 0 "a;b;c").endDate =
      (parseLine E0 0 "a;b;c").parsedDate + 60 * 60 * 1000 :=
  ⟨by decide, C7_end_is_start_plus_hour E0 0 "h\na;b;c" _ (by decide)⟩

/-- C8: an unreadable source file yields the single error carrying the
attempted path; a successfully read file always yields a success value, and
a line failing required-field validation is silently dropped while the
remaining lines' records are still produced. -/
theorem C8_error_policy (E : JsDateEnv) (now : Int)
    (filePath content badLine : String) (pre post : List String) :
    fetchMeetings E now filePath none =
      Except.error ("Could not read or find the file at: " ++ filePath) ∧
    fetchMeetings E now filePath (some content) =
      Except.ok (fetchMeetingsOk E now content) ∧
    (passesRequired (parseLine E now badLine) = false →
      lineRecords E now (pre ++ badLine :: post) = lineRecords E now (pre ++ post)) := by
  refine ⟨rfl, rfl, ?_⟩
  intro h
  simp [lineRecords, List.filter_append, List.filter_cons, h]

/-- C8 witness: a malformed middle line (empty first field) is dropped with
the surrounding records intact, and the read-failure error is produced. -/
theorem C8_error_policy_witness :
    passesRequired (parseLine E0 0 ";x;y") = false ∧
    lineRecords E0 0 (["a;b;c"] ++ ";x;y" :: ["d;e;f"]) =
      lineRecords E0 0 (["a;b;c"] ++ ["d;e;f"]) ∧
    fetchMeetings E0 0 "/tmp/meetings.csv" none =
      Except.error ("Could not read or find the file at: " ++ "/tmp/meetings.csv") :=
  ⟨by decide,
   (C8_error_policy E0 0 "p" "" ";x;y" ["a;b;c"] ["d;e;f"]).2.2 (by decide),
   (C8_error_policy E0 0 "/tmp/meetings.csv" "" "" [] []).1⟩

/-- C9: a record's displayed time is the locale-formatted time of the
resolved start instant when one of the three parse strategies succeeded on
its raw start-time field, and is the raw field text unchanged otherwise. -/
theorem C9_display_time (E : JsDateEnv) (now : Int) (content : String)
    (m : MeetingInfo) (hm : m ∈ fetchMeetingsOk E now content) :
    (∀ t : Int, resolveStartDate E m.StartTime = some t →
      m.timeDisplay = E.fmtTime t ∧ m.parsedDate = t) ∧
    (resolveStartDate E m.StartTime = none → m.timeDisplay = m.StartTime) := by
  obtain ⟨line, _, hEq, _⟩ := exists_line_of_mem_fetchMeetingsOk E now content m hm
  subst hEq
  rw [parseLine_StartTime]
  constructor
  · intro t h
    rw [parseLine_timeDisplay, parseLine_parsedDate, h]
    exact ⟨rfl, rfl⟩
  · intro h
    rw [parseLine_timeDisplay, h]

/-- C9 witness: with host `E1` the field `09:00` resolves to instant 100 and
is displayed through the formatter; with host `E0` nothing resolves and the
raw text is displayed. -/
theorem C9_display_time_witness :
    (parseLine E1 0 "09:00;A;L" ∈ fetchMeetingsOk E1 0 "h\n09:00;A;L" ∧
      resolveStartDate E1 (parseLine E1 0 "09:00;A;L").StartTime = some 100 ∧
      (parseLine E1 0 "09:00;A;L").timeDisplay = E1.fmtTime 100) ∧
    (resolveStartDate E0 (parseLine E0 0 "raw late;A;L").StartTime = none ∧
      (parseLine E0 0 "raw late;A;L").timeDisplay = (parseLine E0 0 "raw late;A;L").StartTime) :=
  ⟨⟨by decide, by decide,
    ((C9_display_time E1 0 "h\n09:00;A;L" _ (by decide)).1 100 (by decide)).1⟩,
   ⟨by decide,
    (C9_display_time E0 0 "h\nraw late;A;L" _ (by decide)).2 (by decide)⟩⟩

/-- C10: a materialized record whose start-time text defeats all three parse
strategies is classified `Active` at load time: its start falls back to the
load instant, so the classification instant sits inside the closed window
from `start - 5` minutes to `start + 1` hour. -/
theorem C10_unparseable_is_active (E : JsDateEnv) (now : Int) (content : String)
    (m : MeetingInfo) (hm : m ∈ fetchMeetingsOk E now content)
    (hr : resolveStartDate E m.StartTime = none) :
    m.status = MeetingStatus.Active ∧ m.parsedDate = now ∧
    m.parsedDate - 5 * 60 * 1000 ≤ now ∧ now ≤ m.endDate := by
  obtain ⟨line, _, hEq, _⟩ := exists_line_of_mem_fetchMeetingsOk E now content m hm
  subst hEq
  rw [parseLine_StartTime] at hr
  have hpd : (parseLine E now line).parsedDate = now := by
    rw [parseLine_parsedDate, hr]
    rfl
  refine ⟨?_, hpd, ?_, ?_⟩
  · rw [parseLine_status, hr]
    show getMeetingStatus now now (some (now + 60 * 60 * 1000)) = MeetingStatus.Active
    simp only [getMeetingStatus]
    rw [if_neg (by omega : ¬ now + 60 * 60 * 1000 < now),
      if_pos (by omega : now - 5 * 60 * 1000 ≤ now),
      if_pos (by omega : now ≤ now + 60 * 60 * 1000)]
  · omega
  · rw [parseLine_endDate, hpd]
    omega

/-- C10 witness: an unparseable start-time field on a surviving record
yields status `Active`. -/
theorem C10_unparseable_is_active_witness :
    parseLine E0 5 "garbled;S;L" ∈ fetchMeetingsOk E0 5 "h\ngarbled;S;L" ∧
    resolveStartDate E0 (parseLine E0 5 "garbled;S;L").StartTime = none ∧
    (parseLine E0 5 "garbled;S;L").status = MeetingStatus.Active :=
  ⟨by decide, by decide,
   (C10_unparseable_is_active E0 5 "h\ngarbled;S;L" _ (by decide) (by decide)).1⟩

/-- Insertion preserves sortedness by start instant. -/
theorem pairwise_le_insertByStart (x : MeetingInfo) (l : List MeetingInfo)
    (h : l.Pairwise (fun a b => a.parsedDate ≤ b.parsedDate)) :
    (insertByStart x l).Pairwise (fun a b => a.parsedDate ≤ b.parsedDate) := by
  induction l with
  | nil => simp [insertByStart]
  | cons y ys ih =>
      obtain ⟨hy, hys⟩ := List.pairwise_cons.mp h
      by_cases hc : x.parsedDate ≤ y.parsedDate
      · rw [insertByStart, if_pos hc]
        rw [List.pairwise_cons]
        refine ⟨?_, h⟩
        intro z hz
        rcases List.mem_cons.mp hz with rfl | hz'
        · exact hc
        · exact le_trans hc (hy z hz')
      · rw [insertByStart, if_neg hc]
        rw [List.pairwise_cons]
        refine ⟨?_, ih hys⟩
        intro z hz
        rcases (mem_insertByStart x z ys).mp hz with rfl | hz'
        · exact le_of_lt (not_le.mp hc)
        · exact hy z hz'

/-- The sort output is sorted (non-decreasing start instants). -/
theorem pairwise_le_sortByStart (l : List MeetingInfo) :
    (sortByStart l).Pairwise (fun a b => a.parsedDate ≤ b.parsedDate) := by
  induction l with
  | nil => simp [sortByStart]
  | cons x xs ih => exact pairwise_le_insertByStart x (sortByStart xs) ih

/-- Stability: for a predicate selecting only records of one fixed start
instant, filtering commutes with one insertion step. -/
theorem filter_insertByStart (q : MeetingInfo → Bool) (t : Int)
    (hq : ∀ m, q m = true → m.parsedDate = t) (x : MeetingInfo)
    (l : List MeetingInfo) :
    (insertByStart x l).filter q = (x :: l).filter q := by
  induction l with
  | nil => rfl
  | cons y ys ih =>
      by_cases hc : x.parsedDate ≤ y.parsedDate
      · rw [insertByStart, if_pos hc]
      · rw [insertByStart, if_neg hc]
        by_cases hqx : q x = true
        · by_cases hqy : q y = true
          · exact absurd (by rw [hq x hqx, hq y hqy]) hc
          · simp [List.filter_cons, ih, hqx, hqy]
        · by_cases hqy : q y = true
          · simp [List.filter_cons, ih, hqx, hqy]
          · simp [List.filter_cons, ih, hqx, hqy]

/-- Stability of the whole sort: the subsequence of records with any fixed
start instant is unchanged. -/
theorem filter_sortByStart (q : MeetingInfo → Bool) (t : Int)
    (hq : ∀ m, q m = true → m.parsedDate = t) (l : List MeetingInfo) :
    (sortByStart l).filter q = l.filter q := by
  induction l with
  | nil => rfl
  | cons x xs ih =>
      have h1 : sortByStart (x :: xs) = insertByStart x (sortByStart xs) := rfl
      rw [h1, filter_insertByStart q t hq, List.filter_cons, List.filter_cons, ih]

/-- The head of a `dropWhile` result fails the predicate. -/
theorem dropWhile_head_not {α : Type} (p : α → Bool) :
    ∀ (l : List α) (x : α) (rest : List α),
      l.dropWhile p = x :: rest → p x = false := by
  intro l
  induction l with
  | nil => intro x rest h; simp [List.dropWhile] at h
  | cons y ys ih =>
      intro x rest h
      by_cases hy : p y = true
      · rw [List.dropWhile_cons_of_pos hy] at h
        exact ih x rest h
      · rw [List.dropWhile_cons_of_neg hy] at h
        injection h with h1 _
        subst h1
        exact Bool.eq_false_iff.mpr hy

/-- A fresh key is appended at the end (object property insertion order). -/
theorem addToGroups_fresh (E : JsDateEnv) (m : MeetingInfo) :
    ∀ g : List (String × List MeetingInfo), recKey E m ∉ g.map Prod.fst →
      addToGroups E g m = g ++ [(recKey E m, [m])] := by
  intro g
  induction g with
  | nil => intro _; rfl
  | cons p rest ih =>
      intro h
      obtain ⟨k, ms⟩ := p
      simp only [List.map_cons, List.mem_cons] at h
      push_neg at h
      obtain ⟨h1, h2⟩ := h
      have hk : ¬ (k = recKey E m) := fun hh => h1 hh.symm
      simp only [addToGroups, if_neg hk, List.cons_append]
      rw [ih h2]

/-- A record whose key is the last (and only matching) key is pushed onto
that key's array. -/
theorem addToGroups_last (E : JsDateEnv) (m : MeetingInfo) (k : String)
    (ms : List MeetingInfo) :
    ∀ g : List (String × List MeetingInfo), k ∉ g.map Prod.fst →
      recKey E m = k →
      addToGroups E (g ++ [(k, ms)]) m = g ++ [(k, ms ++ [m])] := by
  intro g
  induction g with
  | nil =>
      intro _ hk
      simp only [List.nil_append, addToGroups, if_pos hk.symm]
  | cons p rest ih =>
      intro h hk
      obtain ⟨k2, ms2⟩ := p
      simp only [List.map_cons, List.mem_cons] at h
      push_neg at h
      obtain ⟨h1, h2⟩ := h
      have hcond : ¬ (k2 = recKey E m) := fun hh => h1 (hh.trans hk).symm
      simp only [List.cons_append, addToGroups, if_neg hcond, List.append_eq]
      rw [ih h2 hk]

/-- Folding a contiguous run of records sharing the freshly appended last
key extends exactly that key's array. -/
theorem foldl_addToGroups_chunk (E : JsDateEnv) (k : String) :
    ∀ (ch : List MeetingInfo) (g : List (String × List MeetingInfo))
      (ms : List MeetingInfo),
      (∀ x ∈ ch, recKey E x = k) → k ∉ g.map Prod.fst →
      List.foldl (addToGroups E) (g ++ [(k, ms)]) ch = g ++ [(k, ms ++ ch)] := by
  intro ch
  induction ch with
  | nil => intro g ms _ _; simp
  | cons x ch2 ih =>
      intro g ms hkeys hg
      have hx : recKey E x = k := hkeys x (List.mem_cons_self x ch2)
      rw [List.foldl_cons, addToGroups_last E x k ms g hg hx,
        ih g (ms ++ [x]) (fun z hz => hkeys z (List.mem_cons_of_mem x hz)) hg]
      simp

/-- Key equality between two records coincides with equality of the
reparsed key timestamps, assuming the host's `hinj` property. -/
theorem recKey_eq_iff (E : JsDateEnv)
    (hinj : ∀ t1 t2 : Int, E.dateKey t1 = E.dateKey t2 ↔
      E.keyTime (E.dateKey t1) = E.keyTime (E.dateKey t2))
    (a b : MeetingInfo) :
    recKey E a = recKey E b ↔
      E.keyTime (recKey E a) = E.keyTime (recKey E b) :=
  hinj a.parsedDate b.parsedDate

/-- A strictly keyTime-sorted key list has no duplicates. -/
theorem keys_nodup_of_pairwise_lt (E : JsDateEnv) (ks : List String)
    (h : ks.Pairwise (fun k1 k2 => E.keyTime k1 < E.keyTime k2)) : ks.Nodup :=
  h.imp (fun hlt heq => absurd (heq ▸ hlt) (lt_irrefl _))

/-- Inserting a key below every element of a list leaves it in front. -/
theorem insertKeyByTime_le (E : JsDateEnv) (k : String) (ks : List String)
    (hle : ∀ k2 ∈ ks, E.keyTime k ≤ E.keyTime k2) :
    insertKeyByTime E k ks = k :: ks := by
  cases ks with
  | nil => rfl
  | cons y ys =>
      simp only [insertKeyByTime, if_pos (hle y (List.mem_cons_self y ys))]

/-- The key sort is the identity on an already keyTime-sorted key list. -/
theorem sortKeysByTime_sorted_id (E : JsDateEnv) (ks : List String)
    (h : ks.Pairwise (fun k1 k2 => E.keyTime k1 ≤ E.keyTime k2)) :
    sortKeysByTime E ks = ks := by
  induction ks with
  | nil => rfl
  | cons k ks2 ih =>
      obtain ⟨hk, hks⟩ := List.pairwise_cons.mp h
      have h1 : sortKeysByTime E (k :: ks2) =
          insertKeyByTime E k (sortKeysByTime E ks2) := rfl
      rw [h1, ih hks, insertKeyByTime_le E k ks2 hk]

/-- With duplicate-free keys, looking every key up in insertion order and
concatenating reproduces the concatenation of all group arrays. -/
theorem map_groupValues_keys :
    ∀ g : List (String × List MeetingInfo), (g.map Prod.fst).Nodup →
      ((g.map Prod.fst).map (groupValues g)).flatten = flattenValues g := by
  intro g
  induction g with
  | nil => intro _; rfl
  | cons p rest ih =>
      intro h
      obtain ⟨k, ms⟩ := p
      simp only [List.map_cons] at h
      obtain ⟨hknot, hnodup⟩ := List.nodup_cons.mp h
      have hv : groupValues ((k, ms) :: rest) k = ms := by
        simp [groupValues, List.lookup]
      have hrest : (rest.map Prod.fst).map (groupValues ((k, ms) :: rest)) =
          (rest.map Prod.fst).map (groupValues rest) := by
        apply List.map_eq_map_iff.mpr
        intro k2 hk2
        have hne : k2 ≠ k := fun hh => hknot (hh ▸ hk2)
        have hbeq : (k2 == k) = false := beq_eq_false_iff_ne.mpr hne
        simp [groupValues, List.lookup, hbeq]
      rw [List.map_cons, List.map_cons, List.flatten_cons, hv, hrest, ih hnodup]
      simp [flattenValues]

/-- Folding the grouping step over a keyTime-sorted record list, starting
from an accumulator whose keys all rank strictly below every incoming
record's key: the concatenated group arrays extend by exactly the record
list, and the keys stay strictly keyTime-sorted. -/
theorem grouping_fold (E : JsDateEnv)
    (hinj : ∀ t1 t2 : Int, E.dateKey t1 = E.dateKey t2 ↔
      E.keyTime (E.dateKey t1) = E.keyTime (E.dateKey t2)) :
    ∀ (n : Nat) (l : List MeetingInfo) (g : List (String × List MeetingInfo)),
    l.length ≤ n →
    l.Pairwise (fun a b => E.keyTime (recKey E a) ≤ E.keyTime (recKey E b)) →
    (∀ p ∈ g, ∀ m ∈ l, E.keyTime p.1 < E.keyTime (recKey E m)) →
    (g.map Prod.fst).Pairwise (fun k1 k2 => E.keyTime k1 < E.keyTime k2) →
    flattenValues (List.foldl (addToGroups E) g l) = flattenValues g ++ l ∧
    ((List.foldl (addToGroups E) g l).map Prod.fst).Pairwise
      (fun k1 k2 => E.keyTime k1 < E.keyTime k2) := by
  intro n
  induction n with
  | zero =>
      intro l g hlen _ _ hgp
      have hnil : l = [] := List.eq_nil_of_length_eq_zero (Nat.le_zero.mp hlen)
      subst hnil
      exact ⟨by simp, hgp⟩
  | succ n ih =>
      intro l g hlen hpair hg hgp
      cases l with
      | nil => exact ⟨by simp, hgp⟩
      | cons m rest0 =>
        have hknot : recKey E m ∉ g.map Prod.fst := by
          intro hmem
          obtain ⟨p, hp, hpk⟩ := List.mem_map.mp hmem
          have hlt := hg p hp m (List.mem_cons_self m rest0)
          rw [hpk] at hlt
          exact lt_irrefl _ hlt
        have hstep1 : addToGroups E g m = g ++ [(recKey E m, [m])] :=
          addToGroups_fresh E m g hknot
        obtain ⟨ch, rest, hsplit, hch, hsub, hheadne, hlenr⟩ :
            ∃ ch rest, rest0 = ch ++ rest ∧
              (∀ x ∈ ch, recKey E x = recKey E m) ∧
              List.Sublist rest rest0 ∧
              (∀ h0 rest2, rest = h0 :: rest2 → recKey E h0 ≠ recKey E m) ∧
              rest.length ≤ rest0.length := by
          refine ⟨rest0.takeWhile (fun x => recKey E x == recKey E m),
            rest0.dropWhile (fun x => recKey E x == recKey E m),
            (List.takeWhile_append_dropWhile _ _).symm, ?_,
            List.dropWhile_sublist _, ?_, (List.dropWhile_sublist _).length_le⟩
          · intro x hx
            have hb := List.mem_takeWhile_imp hx
            exact eq_of_beq hb
          · intro h0 rest2 hre
            have hb := dropWhile_head_not _ rest0 h0 rest2 hre
            simpa using hb
        obtain ⟨hm_le, hpair0⟩ := List.pairwise_cons.mp hpair
        have hpair_rest : rest.Pairwise
            (fun a b => E.keyTime (recKey E a) ≤ E.keyTime (recKey E b)) :=
          hpair0.sublist hsub
        have hrest_strict : ∀ x ∈ rest,
            E.keyTime (recKey E m) < E.keyTime (recKey E x) := by
          intro x hx
          obtain ⟨h0, rest2, hre⟩ :=
            List.exists_cons_of_ne_nil (List.ne_nil_of_mem hx)
          have hne : recKey E h0 ≠ recKey E m := hheadne h0 rest2 hre
          have hh0mem : h0 ∈ rest0 :=
            hsub.mem (by rw [hre]; exact List.mem_cons_self h0 rest2)
          have hle0 := hm_le h0 hh0mem
          have hne2 : E.keyTime (recKey E m) ≠ E.keyTime (recKey E h0) := by
            intro heq
            exact hne ((recKey_eq_iff E hinj h0 m).mpr heq.symm)
          have hlt0 := lt_of_le_of_ne hle0 hne2
          rw [hre] at hx
          rcases List.mem_cons.mp hx with rfl | hx2
          · exact hlt0
          · have hrp : (h0 :: rest2).Pairwise
                (fun a b => E.keyTime (recKey E a) ≤ E.keyTime (recKey E b)) :=
              hre ▸ hpair_rest
            have hle2 := (List.pairwise_cons.mp hrp).1 x hx2
            exact lt_of_lt_of_le hlt0 hle2
        have hfold : List.foldl (addToGroups E) g (m :: rest0) =
            List.foldl (addToGroups E) (g ++ [(recKey E m, [m] ++ ch)]) rest := by
          rw [List.foldl_cons, hstep1, hsplit, List.foldl_append,
            foldl_addToGroups_chunk E (recKey E m) ch g [m] hch hknot]
        have hg2 : ∀ p ∈ g ++ [(recKey E m, [m] ++ ch)], ∀ x ∈ rest,
            E.keyTime p.1 < E.keyTime (recKey E x) := by
          intro p hp x hx
          rcases List.mem_append.mp hp with hpg | hpk
          · exact hg p hpg x (List.mem_cons_of_mem m (hsub.mem hx))
          · have hpe : p = (recKey E m, [m] ++ ch) := by simpa using hpk
            rw [hpe]
            exact hrest_strict x hx
        have hgp2 : ((g ++ [(recKey E m, [m] ++ ch)]).map Prod.fst).Pairwise
            (fun k1 k2 => E.keyTime k1 < E.keyTime k2) := by
          rw [List.map_append, List.pairwise_append]
          refine ⟨hgp, by simp, ?_⟩
          intro a ha b hb
          have hbk : b = recKey E m := by simpa using hb
          rw [hbk]
          obtain ⟨p, hp, hpa⟩ := List.mem_map.mp ha
          rw [← hpa]
          exact hg p hp m (List.mem_cons_self m rest0)
        have hlen2 : rest.length ≤ n := by
          simp only [List.length_cons] at hlen
          omega
        obtain ⟨ihflat, ihpair⟩ :=
          ih rest (g ++ [(recKey E m, [m] ++ ch)]) hlen2 hpair_rest hg2 hgp2
        constructor
        · rw [hfold, ihflat]
          have hfv : flattenValues (g ++ [(recKey E m, [m] ++ ch)]) =
              flattenValues g ++ ([m] ++ ch) := by
            simp [flattenValues]
          rw [hfv, hsplit]
          simp
        · rw [hfold]
          exact ihpair

/-- For a record list already sorted by the keyTime rank of its day key, the
view's emitted sequence (group, sort the keys, concatenate) is the list
itself. -/
theorem emittedSequence_eq_of_sorted (E : JsDateEnv)
    (hinj : ∀ t1 t2 : Int, E.dateKey t1 = E.dateKey t2 ↔
      E.keyTime (E.dateKey t1) = E.keyTime (E.dateKey t2))
    (l : List MeetingInfo)
    (hpair : l.Pairwise (fun a b => E.keyTime (recKey E a) ≤ E.keyTime (recKey E b))) :
    emittedSequence E l = l := by
  obtain ⟨hflat, hkeys⟩ := grouping_fold E hinj l.length l [] (le_refl _)
    hpair (by simp) (by simp)
  have hnodup : ((groupMeetings E l).map Prod.fst).Nodup :=
    keys_nodup_of_pairwise_lt E _ hkeys
  have hle : ((groupMeetings E l).map Prod.fst).Pairwise
      (fun k1 k2 => E.keyTime k1 ≤ E.keyTime k2) :=
    hkeys.imp (fun h => le_of_lt h)
  show ((sortKeysByTime E ((groupMeetings E l).map Prod.fst)).map
    (groupValues (groupMeetings E l))).flatten = l
  rw [sortKeysByTime_sorted_id E _ hle, map_groupValues_keys _ hnodup]
  simpa [flattenValues] using hflat

/-- C4: for either filter setting (`All`, or `UpcomingAndActive` which keeps
exactly the records whose status is not `Ended`, applied after
classification and before grouping), concatenating the emitted day groups in
their emitted key order reproduces exactly the filtered sorted record
sequence; that sequence has non-decreasing start instants, and records with
equal start instants keep their original relative order.  The two host
hypotheses state that the calendar-day key is monotone in the instant and
that distinct day keys reparse to distinct day timestamps. -/
theorem C4_filter_group_roundtrip (E : JsDateEnv) (now t : Int)
    (content : String) (f : FilterOption)
    (hmono : ∀ t1 t2 : Int, t1 ≤ t2 →
      E.keyTime (E.dateKey t1) ≤ E.keyTime (E.dateKey t2))
    (hinj : ∀ t1 t2 : Int, E.dateKey t1 = E.dateKey t2 ↔
      E.keyTime (E.dateKey t1) = E.keyTime (E.dateKey t2)) :
    emittedSequence E (applyFilter f (fetchMeetingsOk E now content))
      = applyFilter f (fetchMeetingsOk E now content) ∧
    (applyFilter f (fetchMeetingsOk E now content)).Pairwise
      (fun a b => a.parsedDate ≤ b.parsedDate) ∧
    (applyFilter f (fetchMeetingsOk E now content)).filter
        (fun m => m.parsedDate == t)
      = (applyFilter f (loadedRecords E now content)).filter
        (fun m => m.parsedDate == t) := by
  have hsorted : (fetchMeetingsOk E now content).Pairwise
      (fun a b => a.parsedDate ≤ b.parsedDate) :=
    pairwise_le_sortByStart (loadedRecords E now content)
  have hfs : (applyFilter f (fetchMeetingsOk E now content)).Pairwise
      (fun a b => a.parsedDate ≤ b.parsedDate) := by
    cases f with
    | All => exact hsorted
    | UpcomingAndActive => exact hsorted.filter _
  refine ⟨?_, hfs, ?_⟩
  · apply emittedSequence_eq_of_sorted E hinj
    exact hfs.imp (fun h => hmono _ _ h)
  · cases f with
    | All =>
        exact filter_sortByStart (fun m => m.parsedDate == t) t
          (fun m h => by simpa using h) (loadedRecords E now content)
    | UpcomingAndActive =>
        simp only [applyFilter]
        rw [List.filter_filter, List.filter_filter]
        exact filter_sortByStart _ t
          (fun m h => by
            have hx := (Bool.and_eq_true _ _).mp h
            simpa using hx.1)
          (loadedRecords E now content)

/-- C4 witness at a concrete two-record file under host `E0` (single
calendar day, constant key rank), for both interesting facts:
the emitted sequence round-trips and order is preserved. -/
theorem C4_filter_group_roundtrip_witness :
    emittedSequence E0
        (applyFilter FilterOption.All (fetchMeetingsOk E0 0 "h\n09:00;A;L\n14:00;B;M"))
      = applyFilter FilterOption.All (fetchMeetingsOk E0 0 "h\n09:00;A;L\n14:00;B;M") ∧
    (applyFilter FilterOption.All (fetchMeetingsOk E0 0 "h\n09:00;A;L\n14:00;B;M")).Pairwise
      (fun a b => a.parsedDate ≤ b.parsedDate) ∧
    (applyFilter FilterOption.All (fetchMeetingsOk E0 0 "h\n09:00;A;L\n14:00;B;M")).filter
        (fun m => m.parsedDate == 0)
      = (applyFilter FilterOption.All (loadedRecords E0 0 "h\n09:00;A;L\n14:00;B;M")).filter
        (fun m => m.parsedDate == 0) :=
  C4_filter_group_roundtrip E0 0 0 "h\n09:00;A;L\n14:00;B;M" FilterOption.All
    (fun _ _ _ => le_refl 0) (fun _ _ => ⟨fun _ => rfl, fun _ => rfl⟩)
